import Mathlib

/-!
Shallow embedding of the chunk streaming core of the
ProceduralTerrainGeneration repository: the chunk-id pairing, the chunk
manager subsystem tick (window diff and queue drain), the bootstrap
generation pass, the stress-test entry point, the chunk worker thread
(`FChunkThread`) and the mesh-builder index helper
(`UProceduralMeshGeneratorSubsystem::GetSquareIndices`), together with
theorems settling the specification claims about them.
-/

namespace PTG

/-! ## ChunkData: coordinate / id pairing -/

/-- The two's-complement 32-bit image of a signed coordinate. -/
def toNat32 (x : Int) : Nat := (x % (2 ^ 32 : Int)).toNat

/-- The signed coordinate recovered from a two's-complement 32-bit image. -/
def ofNat32 (n : Nat) : Int := if n < 2 ^ 31 then (n : Int) else (n : Int) - 2 ^ 32

/-- Modelled from the spec: `ChunkData::GetChunkIdFromCoordinates` is not part
of the sources here (only its call sites are); the spec requires a bijective
pairing function over the full signed-32-bit coordinate range, implementer
choosing the packing, e.g. a shift-pack.  We model the shift-pack of the
two's-complement 32-bit images of the two coordinates into one integer. -/
def GetChunkIdFromCoordinates (x y : Int) : Nat :=
  toNat32 x * 2 ^ 32 + toNat32 y

/-- Modelled from the spec: the inverse of the pairing function, recovering
the signed coordinate pair from a chunk id. -/
def GetCoordinatesFromChunkId (id : Nat) : Int × Int :=
  (ofNat32 (id / 2 ^ 32), ofNat32 (id % 2 ^ 32))

lemma toNat32_lt (x : Int) : toNat32 x < 2 ^ 32 := by
  unfold toNat32; omega

lemma ofNat32_toNat32 (x : Int) (h1 : -2 ^ 31 ≤ x) (h2 : x < 2 ^ 31) :
    ofNat32 (toNat32 x) = x := by
  unfold ofNat32 toNat32
  split <;> omega

lemma decode_encode (x y : Int) (hx1 : -2 ^ 31 ≤ x) (hx2 : x < 2 ^ 31)
    (hy1 : -2 ^ 31 ≤ y) (hy2 : y < 2 ^ 31) :
    GetCoordinatesFromChunkId (GetChunkIdFromCoordinates x y) = (x, y) := by
  have hxl := toNat32_lt x
  have hyl := toNat32_lt y
  unfold GetCoordinatesFromChunkId GetChunkIdFromCoordinates
  have hdiv : (toNat32 x * 2 ^ 32 + toNat32 y) / 2 ^ 32 = toNat32 x := by omega
  have hmod : (toNat32 x * 2 ^ 32 + toNat32 y) % 2 ^ 32 = toNat32 y := by omega
  rw [hdiv, hmod, ofNat32_toNat32 x hx1 hx2, ofNat32_toNat32 y hy1 hy2]

/-- C3: the ChunkCoord-to-ChunkId mapping is a bijection over the full
signed-32-bit coordinate range: decoding an encoded pair returns the pair,
and distinct pairs in range receive distinct ids. -/
theorem chunkId_pairing_bijective (x y x2 y2 : Int)
    (hx1 : -2 ^ 31 ≤ x) (hx2 : x < 2 ^ 31)
    (hy1 : -2 ^ 31 ≤ y) (hy2 : y < 2 ^ 31)
    (hx21 : -2 ^ 31 ≤ x2) (hx22 : x2 < 2 ^ 31)
    (hy21 : -2 ^ 31 ≤ y2) (hy22 : y2 < 2 ^ 31) :
    GetCoordinatesFromChunkId (GetChunkIdFromCoordinates x y) = (x, y) ∧
    (GetChunkIdFromCoordinates x y = GetChunkIdFromCoordinates x2 y2 →
      x = x2 ∧ y = y2) := by
  refine ⟨decode_encode x y hx1 hx2 hy1 hy2, fun h => ?_⟩
  have h2 := decode_encode x2 y2 hx21 hx22 hy21 hy22
  rw [← h] at h2
  rw [decode_encode x y hx1 hx2 hy1 hy2] at h2
  exact ⟨congrArg Prod.fst h2, congrArg Prod.snd h2⟩

/-- Concrete instance of the bijection theorem. -/
theorem chunkId_pairing_bijective_witness :
    GetCoordinatesFromChunkId (GetChunkIdFromCoordinates (-5) 7) = (-5, 7) ∧
    (GetChunkIdFromCoordinates (-5) 7 = GetChunkIdFromCoordinates 3 (-1) →
      (-5 : Int) = 3 ∧ (7 : Int) = -1) :=
  chunkId_pairing_bijective (-5) 7 3 (-1) (by decide) (by decide) (by decide)
    (by decide) (by decide) (by decide) (by decide) (by decide)

/-! ## Mesh builder index helper -/

/-- The four corner indices of one grid cell, as in
`UProceduralMeshGeneratorSubsystem::FSquareIndices`. -/
structure FSquareIndices where
  bottomLeft : Int
  bottomRight : Int
  topLeft : Int
  topRight : Int
deriving DecidableEq

/-- `UProceduralMeshGeneratorSubsystem::GetSquareIndices`. -/
def GetSquareIndices (x y gridSize : Int) : FSquareIndices :=
  { bottomLeft := x + y * gridSize
    bottomRight := (x + 1) + y * gridSize
    topLeft := x + (y + 1) * gridSize
    topRight := (x + 1) + (y + 1) * gridSize }

/-- C9: for every gridSize at least 2 and interior cell (x, y), the four
corner indices produced by GetSquareIndices are pairwise distinct and lie
within the bounds of a row-major vertex buffer of gridSize^2 entries. -/
theorem getSquareIndices_distinct_inbounds (x y g : Int)
    (hg : 2 ≤ g) (hx0 : 0 ≤ x) (hx1 : x ≤ g - 2) (hy0 : 0 ≤ y) (hy1 : y ≤ g - 2) :
    ((GetSquareIndices x y g).bottomLeft ≠ (GetSquareIndices x y g).bottomRight ∧
     (GetSquareIndices x y g).bottomLeft ≠ (GetSquareIndices x y g).topLeft ∧
     (GetSquareIndices x y g).bottomLeft ≠ (GetSquareIndices x y g).topRight ∧
     (GetSquareIndices x y g).bottomRight ≠ (GetSquareIndices x y g).topLeft ∧
     (GetSquareIndices x y g).bottomRight ≠ (GetSquareIndices x y g).topRight ∧
     (GetSquareIndices x y g).topLeft ≠ (GetSquareIndices x y g).topRight) ∧
    (0 ≤ (GetSquareIndices x y g).bottomLeft ∧
     (GetSquareIndices x y g).bottomLeft < g * g ∧
     0 ≤ (GetSquareIndices x y g).bottomRight ∧
     (GetSquareIndices x y g).bottomRight < g * g ∧
     0 ≤ (GetSquareIndices x y g).topLeft ∧
     (GetSquareIndices x y g).topLeft < g * g ∧
     0 ≤ (GetSquareIndices x y g).topRight ∧
     (GetSquareIndices x y g).topRight < g * g) := by
  have hyg : (y + 1) * g ≤ (g - 1) * g :=
    mul_le_mul_of_nonneg_right (by omega) (by omega)
  have hyg0 : 0 ≤ y * g := mul_nonneg hy0 (by omega)
  have hstep : y * g + g = (y + 1) * g := by ring
  have hgg : (g - 1) * g = g * g - g := by ring
  unfold GetSquareIndices
  dsimp only
  refine ⟨⟨by omega, by omega, by omega, by omega, by omega, by omega⟩,
          by omega, by omega, by omega, by omega, by omega, by omega, by omega, by omega⟩

/-- Concrete instance of the index-helper theorem at gridSize 3, cell (1, 0). -/
theorem getSquareIndices_distinct_inbounds_witness :
    ((GetSquareIndices 1 0 3).bottomLeft ≠ (GetSquareIndices 1 0 3).bottomRight ∧
     (GetSquareIndices 1 0 3).bottomLeft ≠ (GetSquareIndices 1 0 3).topLeft ∧
     (GetSquareIndices 1 0 3).bottomLeft ≠ (GetSquareIndices 1 0 3).topRight ∧
     (GetSquareIndices 1 0 3).bottomRight ≠ (GetSquareIndices 1 0 3).topLeft ∧
     (GetSquareIndices 1 0 3).bottomRight ≠ (GetSquareIndices 1 0 3).topRight ∧
     (GetSquareIndices 1 0 3).topLeft ≠ (GetSquareIndices 1 0 3).topRight) ∧
    (0 ≤ (GetSquareIndices 1 0 3).bottomLeft ∧
     (GetSquareIndices 1 0 3).bottomLeft < 3 * 3 ∧
     0 ≤ (GetSquareIndices 1 0 3).bottomRight ∧
     (GetSquareIndices 1 0 3).bottomRight < 3 * 3 ∧
     0 ≤ (GetSquareIndices 1 0 3).topLeft ∧
     (GetSquareIndices 1 0 3).topLeft < 3 * 3 ∧
     0 ≤ (GetSquareIndices 1 0 3).topRight ∧
     (GetSquareIndices 1 0 3).topRight < 3 * 3) :=
  getSquareIndices_distinct_inbounds 1 0 3 (by decide) (by decide) (by decide)
    (by decide) (by decide)

/-! ## Chunk worker thread (FChunkThread) -/

/-- Octave-noise generation parameters, as carried by the worker thread. -/
structure FPerlinParameters where
  Octaves : Nat
  Persistence : ℚ
  Frequency : ℚ
  Seed : Int
deriving DecidableEq

/-- One computed sample: scaled grid position and scaled height, as stored
in `FVertices.Coords` by `FChunkThread::Run`. -/
structure FVertices where
  x : Int
  y : Int
  height : ℚ
deriving DecidableEq

/-- A chunk record: id, origin coordinates, vertex-grid size and the
height-field buffer. -/
structure FChunk where
  Id : Nat
  Coords : Int × Int
  Size : Nat
  VertexArray : List FVertices
deriving DecidableEq

/-- The worker thread state: its chunk, its generation parameters and the
two flags touched by `Stop` and `Exit`. -/
structure FChunkThread where
  Chunk : FChunk
  Parameters : FPerlinParameters
  bShutdown : Bool
  bisOver : Bool
deriving DecidableEq

/-- The batch size between sleep pauses in `FChunkThread::Run`. -/
def BatchSize : Nat := 30

/-- One sample of the worker loop body: position components scaled by 100
and height the noise value scaled by 100.  The noise basis
(`UPerlinNoise::GenerateOctavePerlinValue`) is abstracted as the function
argument `perlin`. -/
def sampleAt (perlin : Int → Int → Nat → ℚ → ℚ → Int → ℚ)
    (params : FPerlinParameters) (x y : Int) : FVertices :=
  ⟨x * 100, y * 100,
   perlin x y params.Octaves params.Persistence params.Frequency params.Seed * 100⟩

/-- The sample buffer computed by the double loop of `FChunkThread::Run`:
y outer and x inner, each over `s` consecutive grid points from the
origin. -/
def chunkSamples (perlin : Int → Int → Nat → ℚ → ℚ → Int → ℚ)
    (params : FPerlinParameters) (x0 y0 : Int) (s : Nat) : List FVertices :=
  (List.range s).flatMap (fun (j : Nat) =>
    (List.range s).map (fun (i : Nat) =>
      sampleAt perlin params (x0 + (i : Int)) (y0 + (j : Int))))

/-- `FChunkThread::Run`: computes the whole sample grid and appends it to
the chunk's vertex buffer.  The loop never consults `bShutdown`. -/
def FChunkThread.Run (perlin : Int → Int → Nat → ℚ → ℚ → Int → ℚ)
    (t : FChunkThread) : FChunkThread :=
  { t with Chunk := { t.Chunk with VertexArray := (t.Chunk.VertexArray ++
      chunkSamples perlin t.Parameters t.Chunk.Coords.1 t.Chunk.Coords.2 t.Chunk.Size) } }

/-- `FChunkThread::Exit`: marks the thread over and broadcasts one
completion notification carrying the chunk id and the chunk. -/
def FChunkThread.Exit (t : FChunkThread) : FChunkThread × List (Nat × FChunk) :=
  ({ t with bisOver := true }, [(t.Chunk.Id, t.Chunk)])

/-- `FChunkThread::Stop`: sets the shutdown flag and nothing else. -/
def FChunkThread.Stop (t : FChunkThread) : FChunkThread :=
  { t with bShutdown := true }

/-- The whole worker lifecycle after `Init`: run, then exit. -/
def FChunkThread.RunAndExit (perlin : Int → Int → Nat → ℚ → ℚ → Int → ℚ)
    (t : FChunkThread) : FChunkThread × List (Nat × FChunk) :=
  (t.Run perlin).Exit

lemma length_flatMap_const {α β : Type} (ys : List β) (g : β → List α) (m : Nat)
    (h : ∀ y ∈ ys, (g y).length = m) : (ys.flatMap g).length = ys.length * m := by
  induction ys with
  | nil => simp
  | cons y t ih =>
    simp only [List.flatMap_cons, List.length_append, List.length_cons]
    rw [h y (List.mem_cons_self y t), ih (fun z hz => h z (List.mem_cons_of_mem y hz))]
    ring

lemma getElem?_flatMap_const {α β : Type} (ys : List β) (g : β → List α) (m : Nat)
    (h : ∀ y ∈ ys, (g y).length = m) (j i : Nat) (hi : i < m) (hj : j < ys.length) :
    (ys.flatMap g)[j * m + i]? = (g (ys.get ⟨j, hj⟩))[i]? := by
  induction ys generalizing j with
  | nil => simp at hj
  | cons y t ih =>
    cases j with
    | zero =>
      simp only [List.flatMap_cons, List.get]
      rw [Nat.zero_mul, Nat.zero_add]
      exact List.getElem?_append_left (by rw [h y (List.mem_cons_self y t)]; exact hi)
    | succ j =>
      simp only [List.flatMap_cons, List.get]
      have hlen : (g y).length = m := h y (List.mem_cons_self y t)
      have hge : (g y).length ≤ (j + 1) * m + i := by
        rw [hlen]
        calc m ≤ (j + 1) * m := Nat.le_mul_of_pos_left m (Nat.succ_pos j)
          _ ≤ (j + 1) * m + i := Nat.le_add_right _ _
      rw [List.getElem?_append_right hge]
      have harith : (j + 1) * m + i - (g y).length = j * m + i := by
        rw [hlen, Nat.succ_mul]; omega
      rw [harith]
      exact ih (fun z hz => h z (List.mem_cons_of_mem y hz)) j (by simpa using hj)

lemma chunkSamples_length (perlin : Int → Int → Nat → ℚ → ℚ → Int → ℚ)
    (params : FPerlinParameters) (x0 y0 : Int) (s : Nat) :
    (chunkSamples perlin params x0 y0 s).length = s * s := by
  unfold chunkSamples
  rw [length_flatMap_const _ _ s (fun y _ => by simp)]
  simp

lemma chunkSamples_get (perlin : Int → Int → Nat → ℚ → ℚ → Int → ℚ)
    (params : FPerlinParameters) (x0 y0 : Int) (s i j : Nat)
    (hi : i < s) (hj : j < s) :
    (chunkSamples perlin params x0 y0 s)[j * s + i]? =
      some (sampleAt perlin params (x0 + (i : Int)) (y0 + (j : Int))) := by
  unfold chunkSamples
  rw [getElem?_flatMap_const _ _ s (fun y _ => by simp) j i hi (by simpa using hj)]
  rw [List.get_range, List.getElem?_map, List.getElem?_range hi]
  rfl

/-- C2: the worker produces exactly s * s samples in row-major order (y
outer, x inner, over s consecutive grid points from the origin), with
position components the grid coordinates scaled to world units and height
the noise value scaled; a size-5 chunk yields a 25-element height field. -/
theorem chunkWorker_row_major (perlin : Int → Int → Nat → ℚ → ℚ → Int → ℚ)
    (params : FPerlinParameters) (x0 y0 : Int) (s i j : Nat)
    (hs : 1 ≤ s) (hi : i < s) (hj : j < s) :
    (chunkSamples perlin params x0 y0 s).length = s * s ∧
    (chunkSamples perlin params x0 y0 s)[j * s + i]? =
      some (sampleAt perlin params (x0 + (i : Int)) (y0 + (j : Int))) :=
  ⟨chunkSamples_length perlin params x0 y0 s,
   chunkSamples_get perlin params x0 y0 s i j hi hj⟩

/-- Concrete instance: a size-5 chunk at origin (0, 0) with the zero noise
basis yields a 25-element height field whose sample at row 2, column 3 sits
at index 13 with position (300, 200). -/
theorem chunkWorker_row_major_witness :
    (chunkSamples (fun _ _ _ _ _ _ => 0) ⟨1, 1/2, 1/10, 42⟩ 0 0 5).length = 5 * 5 ∧
    (chunkSamples (fun _ _ _ _ _ _ => 0) ⟨1, 1/2, 1/10, 42⟩ 0 0 5)[2 * 5 + 3]? =
      some (sampleAt (fun _ _ _ _ _ _ => 0) ⟨1, 1/2, 1/10, 42⟩ (0 + (3 : Nat))
        (0 + (2 : Nat))) :=
  chunkWorker_row_major (fun _ _ _ _ _ _ => 0) ⟨1, 1/2, 1/10, 42⟩ 0 0 5 3 2
    (by decide) (by decide) (by decide)

/-- C10: every worker that runs appends its full Size^2 sample buffer to the
chunk exactly once and then broadcasts exactly one completion notification
carrying the chunk id and chunk; applying Stop first changes neither the
appended buffer nor the broadcast. -/
theorem chunkWorker_append_once_broadcast_once
    (perlin : Int → Int → Nat → ℚ → ℚ → Int → ℚ) (t : FChunkThread) :
    (t.RunAndExit perlin).1.Chunk.VertexArray = t.Chunk.VertexArray ++
      chunkSamples perlin t.Parameters t.Chunk.Coords.1 t.Chunk.Coords.2 t.Chunk.Size ∧
    (chunkSamples perlin t.Parameters t.Chunk.Coords.1 t.Chunk.Coords.2
      t.Chunk.Size).length = t.Chunk.Size * t.Chunk.Size ∧
    (t.RunAndExit perlin).2 = [(t.Chunk.Id, (t.Run perlin).Chunk)] ∧
    ((t.Stop).RunAndExit perlin).1.Chunk = (t.RunAndExit perlin).1.Chunk ∧
    ((t.Stop).RunAndExit perlin).2 = (t.RunAndExit perlin).2 :=
  ⟨rfl, chunkSamples_length perlin t.Parameters t.Chunk.Coords.1 t.Chunk.Coords.2
    t.Chunk.Size, rfl, rfl, rfl⟩

/-- C4 failing input: the run loop of `FChunkThread::Run` never reads
`bShutdown`, so a worker whose stop signal is set before it runs still
produces its entire sample grid; for a size-8 chunk that is 64 samples,
more than two full batches past the first batch boundary. -/
theorem chunkWorker_run_ignores_stop :
    ((FChunkThread.Stop
        ⟨⟨0, (0, 0), 8, []⟩, ⟨1, 1/2, 1/10, 42⟩, false, false⟩).Run
        (fun _ _ _ _ _ _ => 0)).Chunk.VertexArray.length = 64 ∧
    2 * BatchSize ≤ 64 := by
  constructor
  · show (([] : List FVertices) ++
      chunkSamples (fun _ _ _ _ _ _ => 0) ⟨1, 1/2, 1/10, 42⟩ 0 0 8).length = 64
    rw [List.nil_append, chunkSamples_length]
  · decide

/-! ## Chunk manager subsystem: window diff -/

/-- The inclusive integer interval from a to b, in ascending order, as
traversed by the manager's window loops. -/
def intRange (a b : Int) : List Int :=
  (List.range (b + 1 - a).toNat).map (fun (i : Nat) => a + (i : Int))

lemma mem_intRange {a b x : Int} : x ∈ intRange a b ↔ a ≤ x ∧ x ≤ b := by
  simp only [intRange, List.mem_map, List.mem_range]
  constructor
  · rintro ⟨i, hi, rfl⟩
    omega
  · intro h
    exact ⟨(x - a).toNat, by omega, by omega⟩

lemma intRange_length (a b : Int) : (intRange a b).length = (b + 1 - a).toNat := by
  simp [intRange]

lemma intRange_nodup (a b : Int) : (intRange a b).Nodup :=
  List.Nodup.map (fun i j h => by omega) (List.nodup_range _)

/-- Modelled from the spec: the Registry's chunk-existence test
`UTerrainGeneratorWorldSubsystem::HasChunk` is not among the sources here
(only its call site in the manager tick is); the spec describes it as an
O(1) membership test of an id against the authoritative chunk set, here the
ChunkMap view as a list of id/coordinate entries. -/
def HasChunk (chunkMap : List (Nat × (Int × Int))) (id : Nat) : Bool :=
  chunkMap.any (fun e => e.1 == id)

/-- The creation enqueues of one Steady tick after an observer move to `p`
(chunk units): the (2R+1)^2 window rows y outer and x inner, skipping
coordinates whose chunk id already exists. -/
def enqueueCreations (chunkMap : List (Nat × (Int × Int))) (s R : Int)
    (p : Int × Int) : List (Int × Int) :=
  (intRange (p.2 - R) (p.2 + R)).flatMap (fun y =>
    (intRange (p.1 - R) (p.1 + R)).filterMap (fun x =>
      if HasChunk chunkMap (GetChunkIdFromCoordinates (x * (s - 1)) (y * (s - 1)))
      then none else some (x, y)))

/-- The destruction enqueues of one Steady tick after an observer move to
`p`: every registered chunk whose quad-space coordinates are farther than
R * (s - 1) from the observer's quad position on either axis. -/
def enqueueDestructions (chunkMap : List (Nat × (Int × Int))) (s R : Int)
    (p : Int × Int) : List Nat :=
  chunkMap.filterMap (fun e =>
    if R * (s - 1) < |e.2.1 - p.1 * (s - 1)| ∨ R * (s - 1) < |e.2.2 - p.2 * (s - 1)|
    then some e.1 else none)

/-- The registry view of a set of chunks given by their chunk-unit
coordinates: each entry stores the id computed from the quad-space
coordinates together with those coordinates, as the manager creates them. -/
def registryOf (s : Int) (chunks : List (Int × Int)) : List (Nat × (Int × Int)) :=
  chunks.map (fun c =>
    (GetChunkIdFromCoordinates (c.1 * (s - 1)) (c.2 * (s - 1)),
     (c.1 * (s - 1), c.2 * (s - 1))))

lemma mem_enqueueCreations (chunkMap : List (Nat × (Int × Int))) (s R : Int)
    (p c : Int × Int) :
    c ∈ enqueueCreations chunkMap s R p ↔
      (p.1 - R ≤ c.1 ∧ c.1 ≤ p.1 + R ∧ p.2 - R ≤ c.2 ∧ c.2 ≤ p.2 + R ∧
       HasChunk chunkMap
         (GetChunkIdFromCoordinates (c.1 * (s - 1)) (c.2 * (s - 1))) = false) := by
  unfold enqueueCreations
  simp only [List.mem_flatMap, List.mem_filterMap, mem_intRange]
  constructor
  · rintro ⟨y, ⟨hy1, hy2⟩, x, ⟨hx1, hx2⟩, hif⟩
    by_cases h : HasChunk chunkMap
        (GetChunkIdFromCoordinates (x * (s - 1)) (y * (s - 1))) = true
    · rw [if_pos h] at hif
      cases hif
    · rw [if_neg h] at hif
      cases hif
      exact ⟨hx1, hx2, hy1, hy2, Bool.not_eq_true _ ▸ h⟩
  · rintro ⟨h1, h2, h3, h4, h5⟩
    refine ⟨c.2, ⟨h3, h4⟩, c.1, ⟨h1, h2⟩, ?_⟩
    rw [if_neg (by rw [h5]; exact Bool.false_ne_true)]

lemma mem_enqueueDestructions (chunkMap : List (Nat × (Int × Int))) (s R : Int)
    (p : Int × Int) (id : Nat) :
    id ∈ enqueueDestructions chunkMap s R p ↔
      ∃ e ∈ chunkMap, e.1 = id ∧
        (R * (s - 1) < |e.2.1 - p.1 * (s - 1)| ∨
         R * (s - 1) < |e.2.2 - p.2 * (s - 1)|) := by
  unfold enqueueDestructions
  simp only [List.mem_filterMap]
  constructor
  · rintro ⟨e, he, hif⟩
    by_cases h : R * (s - 1) < |e.2.1 - p.1 * (s - 1)| ∨
        R * (s - 1) < |e.2.2 - p.2 * (s - 1)|
    · rw [if_pos h] at hif
      cases hif
      exact ⟨e, he, rfl, h⟩
    · rw [if_neg h] at hif
      cases hif
  · rintro ⟨e, he, rfl, h⟩
    exact ⟨e, he, by rw [if_pos h]⟩

lemma scaled_far_iff (R d m : Int) (hm : 0 < m) : R * m < |d * m| ↔ R < |d| := by
  rw [abs_mul, abs_of_pos hm]
  exact mul_lt_mul_right hm

/-- C1: in Steady phase, on an observer move to p the tick enqueues for
creation exactly the window coordinates whose id is not yet registered, and
enqueues for destruction exactly the registered chunks at Chebyshev distance
more than R (in chunk units) from p; a chunk that is registered and still in
range is neither re-enqueued for creation nor enqueued for destruction. -/
theorem steady_window_diff (chunks : List (Int × Int)) (s R : Int)
    (p c : Int × Int) (id : Nat) (hs : 2 ≤ s)
    (hrange : ∀ q ∈ chunks, -2 ^ 31 ≤ q.1 * (s - 1) ∧ q.1 * (s - 1) < 2 ^ 31 ∧
      -2 ^ 31 ≤ q.2 * (s - 1) ∧ q.2 * (s - 1) < 2 ^ 31) :
    (c ∈ enqueueCreations (registryOf s chunks) s R p ↔
      (max |c.1 - p.1| |c.2 - p.2| ≤ R ∧
       HasChunk (registryOf s chunks)
         (GetChunkIdFromCoordinates (c.1 * (s - 1)) (c.2 * (s - 1))) = false)) ∧
    (id ∈ enqueueDestructions (registryOf s chunks) s R p ↔
      ∃ q ∈ chunks,
        id = GetChunkIdFromCoordinates (q.1 * (s - 1)) (q.2 * (s - 1)) ∧
        R < max |q.1 - p.1| |q.2 - p.2|) ∧
    (c ∈ chunks → max |c.1 - p.1| |c.2 - p.2| ≤ R →
      c ∉ enqueueCreations (registryOf s chunks) s R p ∧
      GetChunkIdFromCoordinates (c.1 * (s - 1)) (c.2 * (s - 1)) ∉
        enqueueDestructions (registryOf s chunks) s R p) := by
  have hm : (0 : Int) < s - 1 := by omega
  have hid : ∀ q ∈ chunks, ∀ r ∈ chunks,
      GetChunkIdFromCoordinates (q.1 * (s - 1)) (q.2 * (s - 1)) =
        GetChunkIdFromCoordinates (r.1 * (s - 1)) (r.2 * (s - 1)) → q = r := by
    intro q hq r hr heq
    obtain ⟨hq1, hq2, hq3, hq4⟩ := hrange q hq
    obtain ⟨hr1, hr2, hr3, hr4⟩ := hrange r hr
    have h1 := decode_encode (q.1 * (s - 1)) (q.2 * (s - 1)) hq1 hq2 hq3 hq4
    have h2 := decode_encode (r.1 * (s - 1)) (r.2 * (s - 1)) hr1 hr2 hr3 hr4
    rw [heq, h2] at h1
    have e1 : q.1 * (s - 1) = r.1 * (s - 1) := (congrArg Prod.fst h1).symm
    have e2 : q.2 * (s - 1) = r.2 * (s - 1) := (congrArg Prod.snd h1).symm
    have q1 : q.1 = r.1 := by
      have := mul_right_cancel₀ (by omega : s - 1 ≠ 0) e1
      exact this
    have q2 : q.2 = r.2 := by
      have := mul_right_cancel₀ (by omega : s - 1 ≠ 0) e2
      exact this
    exact Prod.ext q1 q2
  have hdest : ∀ j : Nat, j ∈ enqueueDestructions (registryOf s chunks) s R p ↔
      ∃ q ∈ chunks,
        j = GetChunkIdFromCoordinates (q.1 * (s - 1)) (q.2 * (s - 1)) ∧
        R < max |q.1 - p.1| |q.2 - p.2| := by
    intro j
    rw [mem_enqueueDestructions]
    unfold registryOf
    simp only [List.mem_map]
    constructor
    · rintro ⟨e, ⟨q, hq, rfl⟩, hj, hfar⟩
      refine ⟨q, hq, hj.symm, ?_⟩
      rw [lt_max_iff]
      rcases hfar with h | h
      · left
        have : q.1 * (s - 1) - p.1 * (s - 1) = (q.1 - p.1) * (s - 1) := by ring
        rw [this, scaled_far_iff _ _ _ hm] at h
        exact h
      · right
        have : q.2 * (s - 1) - p.2 * (s - 1) = (q.2 - p.2) * (s - 1) := by ring
        rw [this, scaled_far_iff _ _ _ hm] at h
        exact h
    · rintro ⟨q, hq, rfl, hfar⟩
      refine ⟨_, ⟨q, hq, rfl⟩, rfl, ?_⟩
      rw [lt_max_iff] at hfar
      rcases hfar with h | h
      · left
        have e : q.1 * (s - 1) - p.1 * (s - 1) = (q.1 - p.1) * (s - 1) := by ring
        rw [e, scaled_far_iff _ _ _ hm]
        exact h
      · right
        have e : q.2 * (s - 1) - p.2 * (s - 1) = (q.2 - p.2) * (s - 1) := by ring
        rw [e, scaled_far_iff _ _ _ hm]
        exact h
  refine ⟨?_, hdest id, ?_⟩
  · rw [mem_enqueueCreations]
    constructor
    · rintro ⟨h1, h2, h3, h4, h5⟩
      refine ⟨?_, h5⟩
      rw [max_le_iff, abs_le, abs_le]
      omega
    · rintro ⟨h1, h5⟩
      rw [max_le_iff, abs_le, abs_le] at h1
      exact ⟨by omega, by omega, by omega, by omega, h5⟩
  · intro hc hnear
    constructor
    · intro hmem
      rw [mem_enqueueCreations] at hmem
      have hin : HasChunk (registryOf s chunks)
          (GetChunkIdFromCoordinates (c.1 * (s - 1)) (c.2 * (s - 1))) = true := by
        rw [HasChunk, List.any_eq_true]
        refine ⟨(GetChunkIdFromCoordinates (c.1 * (s - 1)) (c.2 * (s - 1)),
          (c.1 * (s - 1), c.2 * (s - 1))), ?_, by simp⟩
        unfold registryOf
        exact List.mem_map.mpr ⟨c, hc, rfl⟩
      rw [hmem.2.2.2.2] at hin
      cases hin
    · intro hmem
      rw [hdest] at hmem
      obtain ⟨q, hq, hqid, hqfar⟩ := hmem
      have : q = c := hid q hq c hc (hqid.symm)
      subst this
      exact absurd hnear (by omega)

/-- Concrete instance of the window-diff theorem: observer at (3, 0) with
R = 1, vertex size 2, chunks registered at (3, 0) and (5, 0): the coordinate
(4, 0) is within range with no registered id, the chunk at (5, 0) is at
Chebyshev distance 2 and its id enqueued for destruction, and the chunk at
(3, 0) is neither re-created nor destroyed. -/
theorem steady_window_diff_witness :
    (((3, 0) : Int × Int) ∈ enqueueCreations (registryOf 2 [(3, 0), (5, 0)]) 2 1 (3, 0) ↔
      (max |((3, 0) : Int × Int).1 - ((3, 0) : Int × Int).1|
          |((3, 0) : Int × Int).2 - ((3, 0) : Int × Int).2| ≤ 1 ∧
       HasChunk (registryOf 2 [(3, 0), (5, 0)])
         (GetChunkIdFromCoordinates (((3, 0) : Int × Int).1 * (2 - 1))
           (((3, 0) : Int × Int).2 * (2 - 1))) = false)) ∧
    (GetChunkIdFromCoordinates (5 * (2 - 1)) (0 * (2 - 1)) ∈
        enqueueDestructions (registryOf 2 [(3, 0), (5, 0)]) 2 1 (3, 0) ↔
      ∃ q ∈ [((3 : Int), (0 : Int)), (5, 0)],
        GetChunkIdFromCoordinates (5 * (2 - 1)) (0 * (2 - 1)) =
          GetChunkIdFromCoordinates (q.1 * (2 - 1)) (q.2 * (2 - 1)) ∧
        1 < max |q.1 - ((3, 0) : Int × Int).1| |q.2 - ((3, 0) : Int × Int).2|) ∧
    (((3, 0) : Int × Int) ∈ [((3 : Int), (0 : Int)), (5, 0)] →
      max |((3, 0) : Int × Int).1 - ((3, 0) : Int × Int).1|
        |((3, 0) : Int × Int).2 - ((3, 0) : Int × Int).2| ≤ 1 →
      ((3, 0) : Int × Int) ∉ enqueueCreations (registryOf 2 [(3, 0), (5, 0)]) 2 1 (3, 0) ∧
      GetChunkIdFromCoordinates (((3, 0) : Int × Int).1 * (2 - 1))
          (((3, 0) : Int × Int).2 * (2 - 1)) ∉
        enqueueDestructions (registryOf 2 [(3, 0), (5, 0)]) 2 1 (3, 0)) :=
  steady_window_diff [(3, 0), (5, 0)] 2 1 (3, 0) (3, 0)
    (GetChunkIdFromCoordinates (5 * (2 - 1)) (0 * (2 - 1))) (by decide) (by decide)

/-! ## Chunk manager subsystem: tick, drain, bootstrap, stress test -/

/-- A call forwarded to the terrain generator registry: either
`RequestChunkGeneration` with quad-space origin and size, or
`RequestChunkDestruction` with a chunk id. -/
inductive Request where
  | gen : Int → Int → Int → Request
  | destroy : Nat → Request
deriving DecidableEq

/-- The manager state touched by `Tick`: the stored observer chunk
coordinate, the two FIFO queues and the drain timer. -/
structure ManagerState where
  PlayerPos : Int × Int
  ChunkGenerationQueue : List (Int × Int)
  ChunkDestructionQueue : List Nat
  TimeSinceLastChunkOperation : ℚ
deriving DecidableEq

/-- The observer-motion part of `Tick`: if the recomputed observer chunk
coordinate differs from the stored one, store it and enqueue the window
diff; otherwise leave the state untouched. -/
def diffPhase (chunkMap : List (Nat × (Int × Int))) (s R : Int)
    (pos : Int × Int) (st : ManagerState) : ManagerState :=
  if pos = st.PlayerPos then st
  else
    { st with
      PlayerPos := pos
      ChunkGenerationQueue :=
        (st.ChunkGenerationQueue ++ enqueueCreations chunkMap s R pos)
      ChunkDestructionQueue :=
        (st.ChunkDestructionQueue ++ enqueueDestructions chunkMap s R pos) }

/-- The drain part of `Tick`: accumulate the elapsed time; once the
interval is reached, reset the timer and dequeue at most one creation and
at most one destruction, forwarding each to the registry. -/
def drainPhase (s : Int) (interval dt : ℚ) (st : ManagerState) :
    ManagerState × List Request :=
  if interval ≤ st.TimeSinceLastChunkOperation + dt then
    match st.ChunkGenerationQueue, st.ChunkDestructionQueue with
    | [], [] =>
      ({ st with TimeSinceLastChunkOperation := 0 }, [])
    | [], d :: ds =>
      ({ st with TimeSinceLastChunkOperation := 0, ChunkDestructionQueue := ds },
       [Request.destroy d])
    | g :: gs, [] =>
      ({ st with TimeSinceLastChunkOperation := 0, ChunkGenerationQueue := gs },
       [Request.gen (g.1 * (s - 1)) (g.2 * (s - 1)) s])
    | g :: gs, d :: ds =>
      ({ st with
          TimeSinceLastChunkOperation := 0
          ChunkGenerationQueue := gs
          ChunkDestructionQueue := ds },
       [Request.gen (g.1 * (s - 1)) (g.2 * (s - 1)) s, Request.destroy d])
  else
    ({ st with TimeSinceLastChunkOperation := st.TimeSinceLastChunkOperation + dt },
     [])

/-- `UChunkManagerWorldSubsystem::Tick` in Steady phase: the diff part
driven by observer motion followed by the fixed-interval drain. -/
def Tick (chunkMap : List (Nat × (Int × Int))) (s R : Int) (interval : ℚ)
    (pos : Int × Int) (dt : ℚ) (st : ManagerState) : ManagerState × List Request :=
  drainPhase s interval dt (diffPhase chunkMap s R pos st)

/-- C5: in a single drain interval at most one creation and one destruction
are dequeued and forwarded: with a creation and a destruction queued plus
further entries behind them, one drain tick forwards exactly the two front
entries and leaves the remaining entries queued in FIFO order. -/
theorem drain_one_of_each (chunkMap : List (Nat × (Int × Int))) (s R : Int)
    (interval dt : ℚ) (pos g : Int × Int) (gs : List (Int × Int)) (d : Nat)
    (ds : List Nat) (st : ManagerState)
    (hpos : pos = st.PlayerPos)
    (hg : st.ChunkGenerationQueue = g :: gs)
    (hd : st.ChunkDestructionQueue = d :: ds)
    (ht : interval ≤ st.TimeSinceLastChunkOperation + dt) :
    (Tick chunkMap s R interval pos dt st).2 =
      [Request.gen (g.1 * (s - 1)) (g.2 * (s - 1)) s, Request.destroy d] ∧
    (Tick chunkMap s R interval pos dt st).1.ChunkGenerationQueue = gs ∧
    (Tick chunkMap s R interval pos dt st).1.ChunkDestructionQueue = ds ∧
    (Tick chunkMap s R interval pos dt st).1.TimeSinceLastChunkOperation = 0 := by
  unfold Tick diffPhase
  rw [if_pos hpos]
  unfold drainPhase
  rw [hg, hd, if_pos ht]
  exact ⟨rfl, rfl, rfl, rfl⟩

/-- Concrete instance of the drain theorem: two creations and two
destructions queued, one tick drains exactly the front entry of each. -/
theorem drain_one_of_each_witness :
    (Tick [] 2 1 1 (0, 0) 1
        ⟨(0, 0), [(7, 8), (9, 10)], [3, 4], 0⟩).2 =
      [Request.gen (7 * (2 - 1)) (8 * (2 - 1)) 2, Request.destroy 3] ∧
    (Tick [] 2 1 1 (0, 0) 1
        ⟨(0, 0), [(7, 8), (9, 10)], [3, 4], 0⟩).1.ChunkGenerationQueue = [(9, 10)] ∧
    (Tick [] 2 1 1 (0, 0) 1
        ⟨(0, 0), [(7, 8), (9, 10)], [3, 4], 0⟩).1.ChunkDestructionQueue = [4] ∧
    (Tick [] 2 1 1 (0, 0) 1
        ⟨(0, 0), [(7, 8), (9, 10)], [3, 4], 0⟩).1.TimeSinceLastChunkOperation = 0 :=
  drain_one_of_each [] 2 1 1 1 (0, 0) (7, 8) [(9, 10)] 3 [4]
    ⟨(0, 0), [(7, 8), (9, 10)], [3, 4], 0⟩ rfl rfl rfl (by norm_num)

/-- C8: on a Steady tick where the recomputed observer coordinate equals the
stored one, no re-diff happens: the stored coordinate is unchanged and
neither queue receives a new entry (each is left as it was, except that the
drain may remove its front entry). -/
theorem steady_tick_no_motion (chunkMap : List (Nat × (Int × Int))) (s R : Int)
    (interval dt : ℚ) (pos : Int × Int) (st : ManagerState)
    (hpos : pos = st.PlayerPos) :
    (Tick chunkMap s R interval pos dt st).1.PlayerPos = st.PlayerPos ∧
    ((Tick chunkMap s R interval pos dt st).1.ChunkGenerationQueue =
        st.ChunkGenerationQueue ∨
     (Tick chunkMap s R interval pos dt st).1.ChunkGenerationQueue =
        st.ChunkGenerationQueue.tail) ∧
    ((Tick chunkMap s R interval pos dt st).1.ChunkDestructionQueue =
        st.ChunkDestructionQueue ∨
     (Tick chunkMap s R interval pos dt st).1.ChunkDestructionQueue =
        st.ChunkDestructionQueue.tail) := by
  unfold Tick diffPhase
  rw [if_pos hpos]
  unfold drainPhase
  by_cases ht : interval ≤ st.TimeSinceLastChunkOperation + dt
  · rw [if_pos ht]
    rcases hg : st.ChunkGenerationQueue with _ | ⟨g, gs⟩ <;>
      rcases hd : st.ChunkDestructionQueue with _ | ⟨d, ds⟩ <;>
      exact ⟨rfl, by simp, by simp⟩
  · rw [if_neg ht]
    exact ⟨rfl, Or.inl rfl, Or.inl rfl⟩

/-- Concrete instance of the motionless-tick theorem. -/
theorem steady_tick_no_motion_witness :
    (Tick [] 2 1 1 (5, 6) (1/2)
        ⟨(5, 6), [(7, 8)], [3], 0⟩).1.PlayerPos = ((5, 6) : Int × Int) ∧
    ((Tick [] 2 1 1 (5, 6) (1/2)
        ⟨(5, 6), [(7, 8)], [3], 0⟩).1.ChunkGenerationQueue = [(7, 8)] ∨
     (Tick [] 2 1 1 (5, 6) (1/2)
        ⟨(5, 6), [(7, 8)], [3], 0⟩).1.ChunkGenerationQueue =
          List.tail [(7, 8)]) ∧
    ((Tick [] 2 1 1 (5, 6) (1/2)
        ⟨(5, 6), [(7, 8)], [3], 0⟩).1.ChunkDestructionQueue = [3] ∨
     (Tick [] 2 1 1 (5, 6) (1/2)
        ⟨(5, 6), [(7, 8)], [3], 0⟩).1.ChunkDestructionQueue = List.tail [3]) :=
  steady_tick_no_motion [] 2 1 1 (1/2) (5, 6) ⟨(5, 6), [(7, 8)], [3], 0⟩ rfl

/-! ## Bootstrap: initial chunk generation and completion tracking -/

/-- Modelled from the spec: `ChunkData::GetInitialChunkCount` is not among
the sources here (only its call sites are); the spec defines the initial
window as a square of side 2R+1 chunks, so the count is (2R+1)^2. -/
def GetInitialChunkCount (R : Int) : Int := (2 * R + 1) ^ 2

/-- `UChunkManagerWorldSubsystem::InitialChunkGeneration`: record the
remaining count from the argument radius, request the center chunk first,
then every other window coordinate (the member radius drives the loops). -/
def InitialChunkGeneration (inR R s : Int) : Int × List Request :=
  (GetInitialChunkCount inR,
   Request.gen 0 0 s ::
     (intRange (-R) R).flatMap (fun y =>
       (intRange (-R) R).filterMap (fun x =>
         if x == 0 && y == 0 then none
         else some (Request.gen (x * (s - 1)) (y * (s - 1)) s))))

lemma filterMap_if_length {α β : Type} (l : List α) (p : α → Bool) (g : α → β) :
    (l.filterMap (fun x => if p x then none else some (g x))).length =
      l.countP (fun x => !(p x)) := by
  induction l with
  | nil => rfl
  | cons x t ih =>
    cases hx : p x <;>
      simp [List.filterMap_cons, List.countP_cons, hx, ih]

lemma flatMap_length_single_zero {α : Type} (ys : List Int) (row : Int → List α)
    (a b : Nat) (h0 : (row 0).length = a)
    (hb : ∀ y ∈ ys, y ≠ 0 → (row y).length = b) (h1 : ys.count 0 = 1) :
    (ys.flatMap row).length = a + (ys.length - 1) * b := by
  induction ys with
  | nil => simp at h1
  | cons y t ih =>
    rw [List.flatMap_cons, List.length_append]
    by_cases hy : y = 0
    · subst hy
      rw [List.count_cons_self] at h1
      have ht0 : (0 : Int) ∉ t := List.count_eq_zero.mp (by omega)
      have := length_flatMap_const t row b
        (fun z hz => hb z (List.mem_cons_of_mem _ hz)
          (fun hz0 => ht0 (hz0 ▸ hz)))
      rw [this, h0, List.length_cons, Nat.add_sub_cancel]
    · have h1t : t.count 0 = 1 := by
        rw [List.count_cons_of_ne (fun h => hy h.symm)] at h1
        exact h1
      have hlen : 1 ≤ t.length := by
        have := List.count_le_length (a := (0 : Int)) (l := t)
        omega
      rw [ih (fun z hz hz0 => hb z (List.mem_cons_of_mem _ hz) hz0) h1t,
        hb y (List.mem_cons_self y t) hy, List.length_cons, Nat.add_sub_cancel]
      obtain ⟨m, hm⟩ : ∃ m, t.length = m + 1 := ⟨t.length - 1, by omega⟩
      rw [hm, Nat.add_sub_cancel, Nat.succ_mul]
      omega

lemma countP_not_zero_eq (l : List Int) :
    l.countP (fun x => !(x == 0)) = l.length - l.count 0 := by
  induction l with
  | nil => rfl
  | cons x t ih =>
    rw [List.countP_cons, List.length_cons]
    by_cases hx : x = 0
    · subst hx
      rw [List.count_cons_self]
      simp only [beq_self_eq_true, Bool.not_true, Bool.false_eq_true, if_false]
      omega
    · rw [List.count_cons_of_ne (fun h => hx h.symm)]
      have hb0 : (x == 0) = false := by simp [hx]
      have hle := List.count_le_length (a := (0 : Int)) (l := t)
      simp only [hb0, Bool.not_false, if_true]
      omega

lemma initialChunkGeneration_length (R s : Int) (hR : 0 ≤ R) :
    (InitialChunkGeneration R R s).2.length = (GetInitialChunkCount R).toNat := by
  unfold InitialChunkGeneration
  rw [List.length_cons]
  have hWlen : (intRange (-R) R).length = (2 * R + 1).toNat := by
    rw [intRange_length]
    congr 1
    ring
  have hcount : (intRange (-R) R).count 0 = 1 :=
    List.count_eq_one_of_mem (intRange_nodup _ _)
      (mem_intRange.mpr ⟨by omega, by omega⟩)
  have h0 : ((intRange (-R) R).filterMap (fun x =>
      if x == 0 && (0 : Int) == 0 then none
      else some (Request.gen (x * (s - 1)) (0 * (s - 1)) s))).length =
      (2 * R + 1).toNat - 1 := by
    rw [filterMap_if_length]
    simp only [beq_self_eq_true, Bool.and_true]
    rw [countP_not_zero_eq, hcount, hWlen]
  have hb : ∀ y ∈ intRange (-R) R, y ≠ 0 →
      ((intRange (-R) R).filterMap (fun x =>
        if x == 0 && y == 0 then none
        else some (Request.gen (x * (s - 1)) (y * (s - 1)) s))).length =
      (2 * R + 1).toNat := by
    intro y _ hy
    rw [filterMap_if_length, ← hWlen]
    apply List.countP_eq_length.mpr
    intro x _
    simp [hy]
  rw [flatMap_length_single_zero _ _ _ _ h0 hb hcount, hWlen]
  have hn : 1 ≤ (2 * R + 1).toNat := by omega
  have hsq : (GetInitialChunkCount R).toNat =
      (2 * R + 1).toNat * (2 * R + 1).toNat := by
    have h2 : GetInitialChunkCount R = (2 * R + 1) * (2 * R + 1) := by
      unfold GetInitialChunkCount
      ring
    obtain ⟨n, hn2⟩ : ∃ n : Nat, (2 * R + 1 : Int) = (n : Int) :=
      ⟨(2 * R + 1).toNat, by omega⟩
    rw [h2, hn2, ← Nat.cast_mul]
    simp only [Int.toNat_natCast]
  obtain ⟨m, hm⟩ : ∃ m, (2 * R + 1).toNat = m + 1 := ⟨(2 * R + 1).toNat - 1, by omega⟩
  rw [hsq, hm, Nat.add_sub_cancel]
  ring

/-- The bootstrap-phase state updated by each completion notification. -/
structure BootState where
  InitialChunksRemaining : Int
  bInitialChunksGenerated : Bool
deriving DecidableEq

/-- The bootstrap part of `UChunkManagerWorldSubsystem::OnChunkGenerated`:
while bootstrap is unfinished, decrement the remaining count, broadcast the
progress pair (total - remaining, total), and enter Steady phase once the
remaining count is zero or less. -/
def OnChunkGeneratedBoot (R : Int) (st : BootState) : BootState × Option (Int × Int) :=
  if st.bInitialChunksGenerated then (st, none)
  else
    ({ InitialChunksRemaining := st.InitialChunksRemaining - 1
       bInitialChunksGenerated := decide (st.InitialChunksRemaining - 1 ≤ 0) },
     some (GetInitialChunkCount R - (st.InitialChunksRemaining - 1),
       GetInitialChunkCount R))

/-- A sequence of completion notifications during bootstrap, collecting the
broadcast progress reports in order. -/
def bootRun (R : Int) : Nat → BootState → BootState × List (Int × Int)
  | 0, st => (st, [])
  | k + 1, st =>
    ((bootRun R k (OnChunkGeneratedBoot R st).1).1,
     (OnChunkGeneratedBoot R st).2.toList ++
       (bootRun R k (OnChunkGeneratedBoot R st).1).2)

lemma bootRun_spec (R : Int) (n : Nat) (hn : 1 ≤ n) :
    bootRun R n ⟨(n : Int), false⟩ =
      (⟨0, true⟩, (List.range n).map (fun (i : Nat) =>
        (GetInitialChunkCount R - (n : Int) + (i : Int) + 1,
         GetInitialChunkCount R))) := by
  induction n with
  | zero => omega
  | succ m ih =>
    rcases Nat.eq_zero_or_pos m with hm | hm
    · subst hm
      simp only [bootRun, OnChunkGeneratedBoot]
      norm_num [List.range_succ]
    · have hstep : OnChunkGeneratedBoot R ⟨((m + 1 : Nat) : Int), false⟩ =
          (⟨(m : Int), false⟩,
           some (GetInitialChunkCount R - (m : Int), GetInitialChunkCount R)) := by
        simp only [OnChunkGeneratedBoot]
        rw [if_neg (by simp)]
        have e1 : ((m + 1 : Nat) : Int) - 1 = (m : Int) := by push_cast; ring
        rw [e1]
        rw [decide_eq_false (by omega : ¬ ((m : Int) ≤ 0))]
      show ((bootRun R m (OnChunkGeneratedBoot R _).1).1,
        (OnChunkGeneratedBoot R _).2.toList ++
          (bootRun R m (OnChunkGeneratedBoot R _).1).2) = _
      rw [hstep]
      simp only [Option.toList_some]
      rw [ih hm]
      refine Prod.ext rfl ?_
      show (GetInitialChunkCount R - (m : Int), GetInitialChunkCount R) ::
        (List.range m).map _ = (List.range (m + 1)).map _
      rw [List.range_succ_eq_map, List.map_cons, List.map_map]
      refine congrArg₂ _ ?_ ?_
      · refine Prod.ext ?_ rfl
        show GetInitialChunkCount R - (m : Int) =
          GetInitialChunkCount R - ((m + 1 : Nat) : Int) + ((0 : Nat) : Int) + 1
        push_cast
        ring
      · apply List.map_congr_left
        intro i _
        refine Prod.ext ?_ rfl
        show GetInitialChunkCount R - ((m : Nat) : Int) + (i : Int) + 1 =
          GetInitialChunkCount R - ((m + 1 : Nat) : Int) + ((i + 1 : Nat) : Int) + 1
        push_cast
        ring

/-- C6: bootstrap with render distance R issues exactly (2R+1)^2 generation
requests with the center (0, 0) first; each completion notification reports
(total - remaining, total); after the last one the remaining count is 0,
Steady phase is entered, the k-th report is (k+1, total), and the final
report is (total, total). -/
theorem bootstrap_window_and_progress (R s : Int) (k : Nat) (hR : 0 ≤ R)
    (hk : k < (GetInitialChunkCount R).toNat) :
    (InitialChunkGeneration R R s).1 = GetInitialChunkCount R ∧
    (InitialChunkGeneration R R s).2.length = (GetInitialChunkCount R).toNat ∧
    (InitialChunkGeneration R R s).2.head? = some (Request.gen 0 0 s) ∧
    (bootRun R (GetInitialChunkCount R).toNat
      ⟨((GetInitialChunkCount R).toNat : Int), false⟩).1 =
      ⟨0, true⟩ ∧
    (bootRun R (GetInitialChunkCount R).toNat
      ⟨((GetInitialChunkCount R).toNat : Int), false⟩).2.length =
      (GetInitialChunkCount R).toNat ∧
    (bootRun R (GetInitialChunkCount R).toNat
      ⟨((GetInitialChunkCount R).toNat : Int), false⟩).2[k]? =
      some ((k : Int) + 1, GetInitialChunkCount R) ∧
    (bootRun R (GetInitialChunkCount R).toNat
      ⟨((GetInitialChunkCount R).toNat : Int), false⟩).2[(GetInitialChunkCount R).toNat - 1]? =
      some (GetInitialChunkCount R, GetInitialChunkCount R) := by
  have hT0 : (0 : Int) < GetInitialChunkCount R := by
    unfold GetInitialChunkCount
    positivity
  have hT1 : 1 ≤ (GetInitialChunkCount R).toNat := by omega
  have hcast : (((GetInitialChunkCount R).toNat : Nat) : Int) = GetInitialChunkCount R := by
    omega
  have hrun := bootRun_spec R (GetInitialChunkCount R).toNat hT1
  refine ⟨rfl, initialChunkGeneration_length R s hR, rfl, ?_, ?_, ?_, ?_⟩
  · rw [hrun]
  · rw [hrun]
    simp
  · rw [hrun]
    rw [List.getElem?_map, List.getElem?_range hk]
    rw [Option.map_some']
    refine congrArg _ (Prod.ext ?_ rfl)
    show GetInitialChunkCount R - ((GetInitialChunkCount R).toNat : Int) +
      (k : Int) + 1 = (k : Int) + 1
    rw [hcast]
    ring
  · rw [hrun]
    rw [List.getElem?_map, List.getElem?_range (by omega)]
    rw [Option.map_some']
    refine congrArg _ (Prod.ext ?_ rfl)
    show GetInitialChunkCount R - ((GetInitialChunkCount R).toNat : Int) +
      (((GetInitialChunkCount R).toNat - 1 : Nat) : Int) + 1 = GetInitialChunkCount R
    rw [hcast]
    have : (((GetInitialChunkCount R).toNat - 1 : Nat) : Int) =
        GetInitialChunkCount R - 1 := by omega
    rw [this]
    ring

/-- Concrete instance of the bootstrap theorem at render distance 2: 25
requests, center first, Steady entered after the 25th notification and the
final (24th-indexed) report equal to (25, 25). -/
theorem bootstrap_window_and_progress_witness :
    (InitialChunkGeneration 2 2 3).1 = GetInitialChunkCount 2 ∧
    (InitialChunkGeneration 2 2 3).2.length = (GetInitialChunkCount 2).toNat ∧
    (InitialChunkGeneration 2 2 3).2.head? = some (Request.gen 0 0 3) ∧
    (bootRun 2 (GetInitialChunkCount 2).toNat
      ⟨((GetInitialChunkCount 2).toNat : Int), false⟩).1 =
      ⟨0, true⟩ ∧
    (bootRun 2 (GetInitialChunkCount 2).toNat
      ⟨((GetInitialChunkCount 2).toNat : Int), false⟩).2.length =
      (GetInitialChunkCount 2).toNat ∧
    (bootRun 2 (GetInitialChunkCount 2).toNat
      ⟨((GetInitialChunkCount 2).toNat : Int), false⟩).2[(24 : Nat)]? =
      some (((24 : Nat) : Int) + 1, GetInitialChunkCount 2) ∧
    (bootRun 2 (GetInitialChunkCount 2).toNat
      ⟨((GetInitialChunkCount 2).toNat : Int), false⟩).2[(GetInitialChunkCount 2).toNat - 1]? =
      some (GetInitialChunkCount 2, GetInitialChunkCount 2) :=
  bootstrap_window_and_progress 2 3 24 (by decide) (by decide)

/-! ## Stress test -/

/-- `UChunkManagerWorldSubsystem::StressTest`: N generation requests issued
immediately, laid out along the x axis at multiples of 31 with size 32. -/
def StressTest (N : Int) : List Request :=
  (intRange 0 (N - 1)).map (fun i => Request.gen (i * 31) 0 32)

/-- The stress-test state set up by `StressTest` and updated by
`OnChunkGenerated`. -/
structure StressState where
  PendingChunks : Int
  bStressTestInProgress : Bool
deriving DecidableEq

/-- The stress part of `UChunkManagerWorldSubsystem::OnChunkGenerated`:
decrement the pending count; once it is zero or less, clear the in-progress
flag and emit the timing report.  The modelled report records the divisor
the code uses for the per-chunk average, namely the value of PendingChunks
after the decrement (the wall-clock numerator is external time and is not
modelled). -/
def OnChunkGeneratedStress (st : StressState) : StressState × Option Int :=
  if st.bStressTestInProgress then
    (if st.PendingChunks - 1 ≤ 0 then
      ({ PendingChunks := st.PendingChunks - 1, bStressTestInProgress := false },
       some (st.PendingChunks - 1))
    else
      ({ PendingChunks := st.PendingChunks - 1, bStressTestInProgress := true },
       none))
  else (st, none)

/-- A sequence of completion notifications during a stress test, collecting
the emitted per-chunk-average divisors. -/
def stressRun : Nat → StressState → StressState × List Int
  | 0, st => (st, [])
  | k + 1, st =>
    ((stressRun k (OnChunkGeneratedStress st).1).1,
     (OnChunkGeneratedStress st).2.toList ++
       (stressRun k (OnChunkGeneratedStress st).1).2)

/-- The chunk id of a registry request, as the generator computes it from
the quad-space origin coordinates. -/
def requestId : Request → Nat
  | Request.gen x y _ => GetChunkIdFromCoordinates x y
  | Request.destroy id => id

/-- C7 failing input: `StressTest 3` issues the three requests along one
axis with pairwise-distinct ids immediately, but the report emitted on the
third completion divides by the decremented pending count, which is 0 at
that point, not by N = 3. -/
theorem stressTest_report_divisor_is_zero :
    StressTest 3 = [Request.gen (0 * 31) 0 32, Request.gen (1 * 31) 0 32,
      Request.gen (2 * 31) 0 32] ∧
    ((StressTest 3).map requestId).Nodup ∧
    (stressRun 3 ⟨3, true⟩).2 = [0] ∧
    (0 : Int) ≠ 3 := by
  refine ⟨by decide, by decide, by decide, by decide⟩

end PTG
